import Mathlib

/-!
Shallow embedding of the GCS (Graduated Cylindrical Shell) geometry core
from `gcs.py`: the skeleton builder `skeleton`, the mesh generator
`gcs_mesh`, the rigid rotation `rotate_mesh` and the scalar
`apex_radius`, together with theorems settling the specification claims.

Numeric conventions of the embedding:
* Python/numpy floats are embedded as real numbers (`ℝ`).
* numpy arrays are embedded as `List`s; `np.linspace`, `np.arange`,
  `np.flipud`, slicing `[1:]` and `np.concatenate` become `linspace`,
  `List.range`, `List.reverse`, `List.drop 1` and `List.append`.
* numpy elementwise arithmetic on arrays becomes `List.map`.
* `np.meshgrid(theta, pspace)` followed by `flatten` enumerates, in
  row-major order, all pairs `(theta[i], pspace[j])` with `j` outer and
  `i` inner; it is embedded as a `flatMap` over `pspace` of a `map`
  over `theta`.
* the module does `from numpy import sin, cos, tan, ...`, so all
  arithmetic — including the scalar arithmetic of `apex_radius` —
  happens on numpy values, which never raise: a division whose
  denominator is zero yields a non-finite value (with a
  RuntimeWarning) and the computation continues. Every function is
  therefore embedded as a total function on `ℝ`. The exact-real
  embedding does not model non-finite float values, so value-level
  theorems carry nonzero-denominator hypotheses wherever a denominator
  could vanish.
-/

open Real

noncomputable section

/-- 3-component real vectors (numpy rows of shape `(3,)`), as nested pairs. -/
abbrev V3 : Type := ℝ × ℝ × ℝ

/-- Sign flip of the lateral coordinate (axis 1): the mirror across the
plane `y = 0`. -/
def mirror1 (a : V3) : V3 := (a.1, -a.2.1, a.2.2)

/-- Euclidean norm of a row, as computed by `numpy.linalg.norm(·, axis=1)`. -/
def norm3 (a : V3) : ℝ := Real.sqrt (a.1 ^ 2 + a.2.1 ^ 2 + a.2.2 ^ 2)

/-- `np.linspace a b n`: `n` evenly spaced samples from `a` to `b`,
endpoints included (for `n = 1` numpy returns just `[a]`). -/
def linspace (a b : ℝ) (n : ℕ) : List ℝ :=
  if n = 1 then [a]
  else (List.range n).map (fun i : ℕ => a + (b - a) * (i : ℝ) / ((n : ℝ) - 1))

/-- Straight-leg sample positions of the right leg:
`np.outer(np.linspace(0, distjunc, straight_vertices), np.array([0, sin(alpha), cos(alpha)]))`. -/
def pslR (alpha distjunc : ℝ) (straight_vertices : ℕ) : List V3 :=
  (linspace 0 distjunc straight_vertices).map
    (fun t => (t * 0, t * Real.sin alpha, t * Real.cos alpha))

/-- Straight-leg sample positions of the left leg (`-sin(alpha)` on axis 1). -/
def pslL (alpha distjunc : ℝ) (straight_vertices : ℕ) : List V3 :=
  (linspace 0 distjunc straight_vertices).map
    (fun t => (t * 0, t * -Real.sin alpha, t * Real.cos alpha))

/-- Straight-leg cross-section radii: `tan(arcsin k) * norm(pslR, axis=1)`. -/
def rsl (alpha distjunc k : ℝ) (straight_vertices : ℕ) : List ℝ :=
  (pslR alpha distjunc straight_vertices).map
    (fun a => Real.tan (Real.arcsin k) * norm3 a)

/-- Straight-leg cross-section angles: `np.full(straight_vertices, -alpha)`. -/
def casl (alpha : ℝ) (straight_vertices : ℕ) : List ℝ :=
  List.replicate straight_vertices (-alpha)

/-- Front-arc parameter samples: `np.linspace(-alpha, pi/2, front_vertices)`. -/
def betaList (alpha : ℝ) (front_vertices : ℕ) : List ℝ :=
  linspace (-alpha) (π / 2) front_vertices

/-- `h = hf / cos(alpha)` with `hf = distjunc`. -/
def hOf (alpha distjunc : ℝ) : ℝ := distjunc / Real.cos alpha

/-- `rho = hf * tan(alpha)` with `hf = distjunc`. -/
def rhoOf (alpha distjunc : ℝ) : ℝ := distjunc * Real.tan alpha

/-- `X0 = (rho + h * k^2 * sin(beta)) / (1 - k^2)`. -/
def X0f (alpha distjunc k beta : ℝ) : ℝ :=
  (rhoOf alpha distjunc + hOf alpha distjunc * k ^ 2 * Real.sin beta) / (1 - k ^ 2)

/-- Front-arc cross-section radius
`rc = sqrt((h^2 * k^2 - rho^2) / (1 - k^2) + X0^2)`. -/
def rcf (alpha distjunc k beta : ℝ) : ℝ :=
  Real.sqrt ((hOf alpha distjunc ^ 2 * k ^ 2 - rhoOf alpha distjunc ^ 2) / (1 - k ^ 2)
    + X0f alpha distjunc k beta ^ 2)

/-- Front-arc position, right half: `(0, X0*cos(beta), h + X0*sin(beta))`. -/
def pcRf (alpha distjunc k beta : ℝ) : V3 :=
  (0, X0f alpha distjunc k beta * Real.cos beta,
    hOf alpha distjunc + X0f alpha distjunc k beta * Real.sin beta)

/-- Front-arc position, left half: `(0, -X0*cos(beta), h + X0*sin(beta))`. -/
def pcLf (alpha distjunc k beta : ℝ) : V3 :=
  (0, -(X0f alpha distjunc k beta * Real.cos beta),
    hOf alpha distjunc + X0f alpha distjunc k beta * Real.sin beta)

/-- Front-arc radius array `rc`. -/
def rcList (alpha distjunc k : ℝ) (front_vertices : ℕ) : List ℝ :=
  (betaList alpha front_vertices).map (rcf alpha distjunc k)

/-- Front-arc cross-section angle array: `cac = beta`. -/
def cacList (alpha : ℝ) (front_vertices : ℕ) : List ℝ :=
  betaList alpha front_vertices

/-- Front-arc position array, right half (`pcR`). -/
def pcRList (alpha distjunc k : ℝ) (front_vertices : ℕ) : List V3 :=
  (betaList alpha front_vertices).map (pcRf alpha distjunc k)

/-- Front-arc position array, left half (`pcL`). -/
def pcLList (alpha distjunc k : ℝ) (front_vertices : ℕ) : List V3 :=
  (betaList alpha front_vertices).map (pcLf alpha distjunc k)

/-- The skeleton builder `skeleton(alpha, distjunc, straight_vertices,
front_vertices, k)` of `gcs.py`, returning the assembled arrays
`(p, r, ca)`:
`r  = concatenate((rsl, rc[1:], flipud(rc)[1:], flipud(rsl)[1:]))`,
`ca = concatenate((casl, cac[1:], pi-flipud(cac)[1:], pi-flipud(casl)[1:]))`,
`p  = concatenate((pslR, pcR[1:], flipud(pcL)[1:], flipud(pslL)[1:]))`. -/
def skeleton (alpha distjunc : ℝ) (straight_vertices front_vertices : ℕ) (k : ℝ) :
    List V3 × List ℝ × List ℝ :=
  ( pslR alpha distjunc straight_vertices
      ++ (pcRList alpha distjunc k front_vertices).drop 1
      ++ ((pcLList alpha distjunc k front_vertices).reverse.drop 1)
      ++ ((pslL alpha distjunc straight_vertices).reverse.drop 1),
    rsl alpha distjunc k straight_vertices
      ++ (rcList alpha distjunc k front_vertices).drop 1
      ++ ((rcList alpha distjunc k front_vertices).reverse.drop 1)
      ++ ((rsl alpha distjunc k straight_vertices).reverse.drop 1),
    casl alpha straight_vertices
      ++ (cacList alpha front_vertices).drop 1
      ++ (((cacList alpha front_vertices).reverse.drop 1).map (fun x => π - x))
      ++ (((casl alpha straight_vertices).reverse.drop 1).map (fun x => π - x)) )

/-- The junction distance derived inside `gcs_mesh`:
`distjunc = height * (1-k) * cos(alpha) / (1 + sin(alpha))`. -/
def distjuncOf (alpha height k : ℝ) : ℝ :=
  height * (1 - k) * Real.cos alpha / (1 + Real.sin alpha)

/-- One mesh point of `gcs_mesh`:
`r[v] * [cos(u), sin(u)*cos(ca[v]), sin(u)*sin(ca[v])] + p[v]`
(the in-bounds accesses `r[v]`, `ca[v]`, `p[v]` are embedded with
`List.getD` and an arbitrary default). -/
def meshPoint (p : List V3) (r ca : List ℝ) (v : ℕ) (u : ℝ) : V3 :=
  (r.getD v 0 * Real.cos u + (p.getD v (0, 0, 0)).1,
   r.getD v 0 * (Real.sin u * Real.cos (ca.getD v 0)) + (p.getD v (0, 0, 0)).2.1,
   r.getD v 0 * (Real.sin u * Real.sin (ca.getD v 0)) + (p.getD v (0, 0, 0)).2.2)

/-- The flattened meshgrid of `gcs_mesh`:
`u, v = np.meshgrid(theta, pspace); u, v = u.flatten(), v.flatten()`
with `theta = linspace(0, 2*pi, circle_vertices)` and
`pspace = arange(0, (front_vertices + straight_vertices) * 2 - 3)`,
listed here as the list of pairs `(u_idx, v_idx)` in flattening order
(`pspace` outer, `theta` inner). -/
def meshUV (straight_vertices front_vertices circle_vertices : ℕ) : List (ℝ × ℕ) :=
  (List.range ((front_vertices + straight_vertices) * 2 - 3)).flatMap
    (fun v => (linspace 0 (2 * π) circle_vertices).map (fun u => (u, v)))

/-- The mesh generator `gcs_mesh(alpha, height, straight_vertices,
front_vertices, circle_vertices, k)` of `gcs.py`, returning the triple
`(mesh, u, v)` of flattened arrays. -/
def gcs_mesh (alpha height : ℝ) (straight_vertices front_vertices circle_vertices : ℕ)
    (k : ℝ) : List V3 × List ℝ × List ℕ :=
  let distjunc := distjuncOf alpha height k
  let s := skeleton alpha distjunc straight_vertices front_vertices k
  let uv := meshUV straight_vertices front_vertices circle_vertices
  (uv.map (fun w => meshPoint s.1 s.2.1 s.2.2 w.2 w.1),
   uv.map Prod.fst, uv.map Prod.snd)

/-- Right-handed active rotation about axis 0 (the `x` axis). -/
def rotX (a : ℝ) (w : V3) : V3 :=
  (w.1, Real.cos a * w.2.1 - Real.sin a * w.2.2, Real.sin a * w.2.1 + Real.cos a * w.2.2)

/-- Right-handed active rotation about axis 1 (the `y` axis). -/
def rotY (a : ℝ) (w : V3) : V3 :=
  (Real.cos a * w.1 + Real.sin a * w.2.2, w.2.1, -Real.sin a * w.1 + Real.cos a * w.2.2)

/-- Right-handed active rotation about axis 2 (the `z` axis). -/
def rotZ (a : ℝ) (w : V3) : V3 :=
  (Real.cos a * w.1 - Real.sin a * w.2.1, Real.sin a * w.1 + Real.cos a * w.2.1, w.2.2)

/-- `rotate_mesh(mesh, neang)` of `gcs.py` with `neang = [lon, lat, tilt]`:
`Rotation.from_euler('zyx', [neang[2], neang[1], neang[0]]).apply(mesh)`.
scipy's lowercase `'zyx'` sequence is extrinsic: the listed rotations are
performed about the fixed axes in the listed order, so every point is
first rotated about the `z` axis by `neang[2] = tilt`, then about the
`y` axis by `neang[1] = lat`, then about the `x` axis by `neang[0] = lon`. -/
def rotate_mesh (mesh : List V3) (lon lat tilt : ℝ) : List V3 :=
  mesh.map (fun w => rotX lon (rotY lat (rotZ tilt w)))

/-- Modelled from the spec's words for the rotation order claim (not from
the source): "first rotate by `tilt` about the model's own depth axis
(axis 0), then by `lat` about the lateral axis (axis 1), then by `lon`
about the height axis (axis 2)". Used only to compare the claimed order
with `rotate_mesh`. -/
def rotate_mesh_claimed (mesh : List V3) (lon lat tilt : ℝ) : List V3 :=
  mesh.map (fun w => rotZ lon (rotY lat (rotX tilt w)))

/-- A 3×3 matrix as three rows. -/
abbrev M3 : Type := V3 × V3 × V3

/-- Matrix–vector application. -/
def matApply (m : M3) (w : V3) : V3 :=
  (m.1.1 * w.1 + m.1.2.1 * w.2.1 + m.1.2.2 * w.2.2,
   m.2.1.1 * w.1 + m.2.1.2.1 * w.2.1 + m.2.1.2.2 * w.2.2,
   m.2.2.1 * w.1 + m.2.2.2.1 * w.2.1 + m.2.2.2.2 * w.2.2)

/-- The single compound rotation matrix `Rx(lon) * Ry(lat) * Rz(tilt)`
effected by `rotate_mesh` (tilt applied first, about the height axis;
then lat about the lateral axis; then lon about the depth axis). -/
def gcsRotMat (lon lat tilt : ℝ) : M3 :=
  ((Real.cos lat * Real.cos tilt, -(Real.cos lat * Real.sin tilt), Real.sin lat),
   (Real.cos lon * Real.sin tilt + Real.sin lon * Real.sin lat * Real.cos tilt,
    Real.cos lon * Real.cos tilt - Real.sin lon * Real.sin lat * Real.sin tilt,
    -(Real.sin lon * Real.cos lat)),
   (Real.sin lon * Real.sin tilt - Real.cos lon * Real.sin lat * Real.cos tilt,
    Real.sin lon * Real.cos tilt + Real.cos lon * Real.sin lat * Real.sin tilt,
    Real.cos lon * Real.cos lat))

/-- `apex_radius(alpha, height, k)` of `gcs.py`:
`h = height*(1-k)*cos(alpha)/(1+sin(alpha))`; `b = h/cos(alpha)`;
`rho = h*tan(alpha)`; result `k*(b+rho)/(1-k^2)`, with `h`, `b`, `rho`
inlined. The module imports `sin`/`cos`/`tan` from numpy, so the
intermediates are numpy scalars and nothing is ever raised: there is no
parameter validation and no abort anywhere in the function (a zero
denominator yields a non-finite float, here outside the exact-real
model). -/
def apex_radius (alpha height k : ℝ) : ℝ :=
  k * (height * (1 - k) * Real.cos alpha / (1 + Real.sin alpha) / Real.cos alpha
    + height * (1 - k) * Real.cos alpha / (1 + Real.sin alpha) * Real.tan alpha)
  / (1 - k ^ 2)

/-! ### List access infrastructure -/

theorem linspace_length (a b : ℝ) (n : ℕ) : (linspace a b n).length = n := by
  unfold linspace
  split
  · simp [*]
  · rw [List.length_map, List.length_range]

theorem linspace_getElem? (a b : ℝ) (n i : ℕ) (hn : 2 ≤ n) (hi : i < n) :
    (linspace a b n)[i]? = some (a + (b - a) * i / ((n : ℝ) - 1)) := by
  unfold linspace
  rw [if_neg (by omega),
    List.getElem?_map (fun i : ℕ => a + (b - a) * (i : ℝ) / ((n : ℝ) - 1)) (List.range n) i,
    List.getElem?_range hi]
  rfl

theorem length_flatMap_const {β : Type} (F : ℕ → List β) (c : ℕ)
    (h : ∀ v, (F v).length = c) (N : ℕ) :
    ((List.range N).flatMap F).length = N * c := by
  induction N with
  | zero => simp
  | succ n ih =>
    rw [List.range_succ, List.flatMap_append, List.length_append, ih]
    simp [h n, Nat.succ_mul]

theorem getElem?_flatMap_range {β : Type} (F : ℕ → List β) (c : ℕ)
    (h : ∀ v, (F v).length = c) (N v i : ℕ) (hv : v < N) (hi : i < c) :
    ((List.range N).flatMap F)[v * c + i]? = (F v)[i]? := by
  induction N with
  | zero => omega
  | succ n ih =>
    rw [List.range_succ, List.flatMap_append]
    have hlen : ((List.range n).flatMap F).length = n * c := length_flatMap_const F c h n
    rcases Nat.lt_or_ge v n with hvn | hvn
    · have hlt : v * c + i < n * c := by
        have h1 : v * c + i < (v + 1) * c := by
          rw [Nat.succ_mul]
          exact Nat.add_lt_add_left hi _
        exact lt_of_lt_of_le h1 (Nat.mul_le_mul_right c (Nat.succ_le_of_lt hvn))
      rw [List.getElem?_append_left (by rw [hlen]; exact hlt)]
      exact ih hvn
    · have hv' : v = n := by omega
      subst hv'
      rw [List.getElem?_append_right (by rw [hlen]; exact Nat.le_add_right _ _), hlen]
      have hidx : v * c + i - v * c = i := by omega
      rw [hidx]
      simp [List.flatMap_cons, List.flatMap_nil]

/-- The `i`-th straight-leg parameter `t_i = distjunc * i / (straight_vertices - 1)`. -/
def tOf (distjunc : ℝ) (straight_vertices i : ℕ) : ℝ :=
  distjunc * (i : ℝ) / ((straight_vertices : ℝ) - 1)

/-- The `j`-th front-arc parameter `beta_j = -alpha + (pi/2 + alpha) * j / (front_vertices - 1)`. -/
def betaOf (alpha : ℝ) (front_vertices j : ℕ) : ℝ :=
  -alpha + (π / 2 + alpha) * (j : ℝ) / ((front_vertices : ℝ) - 1)

theorem linspace_zero_getElem? (d : ℝ) (n i : ℕ) (hn : 2 ≤ n) (hi : i < n) :
    (linspace 0 d n)[i]? = some (tOf d n i) := by
  rw [linspace_getElem? _ _ _ _ hn hi]
  unfold tOf
  norm_num

theorem betaList_getElem? (alpha : ℝ) (fv j : ℕ) (hfv : 2 ≤ fv) (hj : j < fv) :
    (betaList alpha fv)[j]? = some (betaOf alpha fv j) := by
  unfold betaList
  rw [linspace_getElem? _ _ _ _ hfv hj]
  unfold betaOf
  have : -alpha + (π / 2 - -alpha) * (j : ℝ) / ((fv : ℝ) - 1)
      = -alpha + (π / 2 + alpha) * (j : ℝ) / ((fv : ℝ) - 1) := by ring
  rw [this]

theorem pslR_length (alpha distjunc : ℝ) (sv : ℕ) : (pslR alpha distjunc sv).length = sv := by
  unfold pslR
  rw [List.length_map, linspace_length]

theorem pslL_length (alpha distjunc : ℝ) (sv : ℕ) : (pslL alpha distjunc sv).length = sv := by
  unfold pslL
  rw [List.length_map, linspace_length]

theorem rsl_length (alpha distjunc k : ℝ) (sv : ℕ) : (rsl alpha distjunc k sv).length = sv := by
  unfold rsl
  rw [List.length_map, pslR_length]

theorem casl_length (alpha : ℝ) (sv : ℕ) : (casl alpha sv).length = sv := by
  unfold casl
  rw [List.length_replicate]

theorem betaList_length (alpha : ℝ) (fv : ℕ) : (betaList alpha fv).length = fv := by
  unfold betaList
  rw [linspace_length]

theorem rcList_length (alpha distjunc k : ℝ) (fv : ℕ) :
    (rcList alpha distjunc k fv).length = fv := by
  unfold rcList
  rw [List.length_map, betaList_length]

theorem cacList_length (alpha : ℝ) (fv : ℕ) : (cacList alpha fv).length = fv := by
  unfold cacList
  rw [betaList_length]

theorem pcRList_length (alpha distjunc k : ℝ) (fv : ℕ) :
    (pcRList alpha distjunc k fv).length = fv := by
  unfold pcRList
  rw [List.length_map, betaList_length]

theorem pcLList_length (alpha distjunc k : ℝ) (fv : ℕ) :
    (pcLList alpha distjunc k fv).length = fv := by
  unfold pcLList
  rw [List.length_map, betaList_length]

theorem pslR_getElem? (alpha distjunc : ℝ) (sv i : ℕ) (hsv : 2 ≤ sv) (hi : i < sv) :
    (pslR alpha distjunc sv)[i]? =
      some (tOf distjunc sv i * 0, tOf distjunc sv i * Real.sin alpha,
        tOf distjunc sv i * Real.cos alpha) := by
  unfold pslR
  rw [List.getElem?_map _ _ i, linspace_zero_getElem? _ _ _ hsv hi]
  rfl

theorem pslL_getElem? (alpha distjunc : ℝ) (sv i : ℕ) (hsv : 2 ≤ sv) (hi : i < sv) :
    (pslL alpha distjunc sv)[i]? =
      some (tOf distjunc sv i * 0, tOf distjunc sv i * -Real.sin alpha,
        tOf distjunc sv i * Real.cos alpha) := by
  unfold pslL
  rw [List.getElem?_map _ _ i, linspace_zero_getElem? _ _ _ hsv hi]
  rfl

theorem rsl_getElem? (alpha distjunc k : ℝ) (sv i : ℕ) (hsv : 2 ≤ sv) (hi : i < sv) :
    (rsl alpha distjunc k sv)[i]? =
      some (Real.tan (Real.arcsin k) * norm3 (tOf distjunc sv i * 0,
        tOf distjunc sv i * Real.sin alpha, tOf distjunc sv i * Real.cos alpha)) := by
  unfold rsl
  rw [List.getElem?_map _ _ i, pslR_getElem? _ _ _ _ hsv hi]
  rfl

theorem casl_getElem? (alpha : ℝ) (sv i : ℕ) (hi : i < sv) :
    (casl alpha sv)[i]? = some (-alpha) := by
  unfold casl
  rw [List.getElem?_replicate]
  simp [hi]

theorem pcRList_getElem? (alpha distjunc k : ℝ) (fv j : ℕ) (hfv : 2 ≤ fv) (hj : j < fv) :
    (pcRList alpha distjunc k fv)[j]? = some (pcRf alpha distjunc k (betaOf alpha fv j)) := by
  unfold pcRList
  rw [List.getElem?_map _ _ j, betaList_getElem? _ _ _ hfv hj]
  rfl

theorem pcLList_getElem? (alpha distjunc k : ℝ) (fv j : ℕ) (hfv : 2 ≤ fv) (hj : j < fv) :
    (pcLList alpha distjunc k fv)[j]? = some (pcLf alpha distjunc k (betaOf alpha fv j)) := by
  unfold pcLList
  rw [List.getElem?_map _ _ j, betaList_getElem? _ _ _ hfv hj]
  rfl

theorem rcList_getElem? (alpha distjunc k : ℝ) (fv j : ℕ) (hfv : 2 ≤ fv) (hj : j < fv) :
    (rcList alpha distjunc k fv)[j]? = some (rcf alpha distjunc k (betaOf alpha fv j)) := by
  unfold rcList
  rw [List.getElem?_map _ _ j, betaList_getElem? _ _ _ hfv hj]
  rfl

theorem cacList_getElem? (alpha : ℝ) (fv j : ℕ) (hfv : 2 ≤ fv) (hj : j < fv) :
    (cacList alpha fv)[j]? = some (betaOf alpha fv j) := by
  unfold cacList
  exact betaList_getElem? _ _ _ hfv hj

/-! ### Access into the assembled skeleton arrays -/

theorem skeleton_p_length (alpha dj k : ℝ) (sv fv : ℕ) (hsv : 1 ≤ sv) (hfv : 1 ≤ fv) :
    (skeleton alpha dj sv fv k).1.length = 2 * sv + 2 * fv - 3 := by
  simp only [skeleton, List.length_append, List.length_drop, List.length_reverse,
    pslR_length, pslL_length, pcRList_length, pcLList_length]
  omega

theorem skeleton_r_length (alpha dj k : ℝ) (sv fv : ℕ) (hsv : 1 ≤ sv) (hfv : 1 ≤ fv) :
    (skeleton alpha dj sv fv k).2.1.length = 2 * sv + 2 * fv - 3 := by
  simp only [skeleton, List.length_append, List.length_drop, List.length_reverse,
    rsl_length, rcList_length]
  omega

theorem skeleton_ca_length (alpha dj k : ℝ) (sv fv : ℕ) (hsv : 1 ≤ sv) (hfv : 1 ≤ fv) :
    (skeleton alpha dj sv fv k).2.2.length = 2 * sv + 2 * fv - 3 := by
  simp only [skeleton, List.length_append, List.length_drop, List.length_reverse,
    List.length_map, casl_length, cacList_length]
  omega

theorem skeleton_p_A (alpha dj k : ℝ) (sv fv i : ℕ) (hi : i < sv) :
    (skeleton alpha dj sv fv k).1[i]? = (pslR alpha dj sv)[i]? := by
  simp only [skeleton]
  rw [List.append_assoc, List.append_assoc]
  rw [List.getElem?_append_left (by rw [pslR_length]; exact hi)]

theorem skeleton_p_B (alpha dj k : ℝ) (sv fv j : ℕ) (hj : j < fv - 1) :
    (skeleton alpha dj sv fv k).1[sv + j]? = (pcRList alpha dj k fv)[1 + j]? := by
  simp only [skeleton]
  rw [List.append_assoc, List.append_assoc]
  rw [List.getElem?_append_right (by rw [pslR_length]; omega), pslR_length]
  have h1 : sv + j - sv = j := by omega
  rw [h1, List.getElem?_append_left (by rw [List.length_drop, pcRList_length]; omega),
    List.getElem?_drop]

theorem skeleton_p_C (alpha dj k : ℝ) (sv fv m : ℕ) (hm : m < fv - 1) :
    (skeleton alpha dj sv fv k).1[sv + (fv - 1) + m]? =
      (pcLList alpha dj k fv)[fv - 2 - m]? := by
  simp only [skeleton]
  rw [List.append_assoc, List.append_assoc]
  rw [List.getElem?_append_right (by rw [pslR_length]; omega), pslR_length]
  have h1 : sv + (fv - 1) + m - sv = (fv - 1) + m := by omega
  rw [h1, List.getElem?_append_right (by rw [List.length_drop, pcRList_length]; omega),
    List.length_drop, pcRList_length]
  have h2 : fv - 1 + m - (fv - 1) = m := by omega
  rw [h2, List.getElem?_append_left
      (by rw [List.length_drop, List.length_reverse, pcLList_length]; omega),
    List.getElem?_drop, List.getElem?_reverse (by rw [pcLList_length]; omega),
    pcLList_length]
  have h3 : fv - 1 - (1 + m) = fv - 2 - m := by omega
  rw [h3]

theorem skeleton_p_D (alpha dj k : ℝ) (sv fv m : ℕ) (hfv : 1 ≤ fv) (hm : m < sv - 1) :
    (skeleton alpha dj sv fv k).1[sv + 2 * (fv - 1) + m]? =
      (pslL alpha dj sv)[sv - 2 - m]? := by
  simp only [skeleton]
  rw [List.append_assoc, List.append_assoc]
  rw [List.getElem?_append_right (by rw [pslR_length]; omega), pslR_length]
  have h1 : sv + 2 * (fv - 1) + m - sv = (fv - 1) + ((fv - 1) + m) := by omega
  rw [h1, List.getElem?_append_right (by rw [List.length_drop, pcRList_length]; omega),
    List.length_drop, pcRList_length]
  have h2 : (fv - 1) + ((fv - 1) + m) - (fv - 1) = (fv - 1) + m := by omega
  rw [h2, List.getElem?_append_right
      (by rw [List.length_drop, List.length_reverse, pcLList_length]; omega),
    List.length_drop, List.length_reverse, pcLList_length]
  have h3 : fv - 1 + m - (fv - 1) = m := by omega
  rw [h3, List.getElem?_drop, List.getElem?_reverse (by rw [pslL_length]; omega),
    pslL_length]
  have h4 : sv - 1 - (1 + m) = sv - 2 - m := by omega
  rw [h4]

theorem skeleton_r_A (alpha dj k : ℝ) (sv fv i : ℕ) (hi : i < sv) :
    (skeleton alpha dj sv fv k).2.1[i]? = (rsl alpha dj k sv)[i]? := by
  simp only [skeleton]
  rw [List.append_assoc, List.append_assoc]
  rw [List.getElem?_append_left (by rw [rsl_length]; exact hi)]

theorem skeleton_r_B (alpha dj k : ℝ) (sv fv j : ℕ) (hj : j < fv - 1) :
    (skeleton alpha dj sv fv k).2.1[sv + j]? = (rcList alpha dj k fv)[1 + j]? := by
  simp only [skeleton]
  rw [List.append_assoc, List.append_assoc]
  rw [List.getElem?_append_right (by rw [rsl_length]; omega), rsl_length]
  have h1 : sv + j - sv = j := by omega
  rw [h1, List.getElem?_append_left (by rw [List.length_drop, rcList_length]; omega),
    List.getElem?_drop]

theorem skeleton_r_C (alpha dj k : ℝ) (sv fv m : ℕ) (hm : m < fv - 1) :
    (skeleton alpha dj sv fv k).2.1[sv + (fv - 1) + m]? =
      (rcList alpha dj k fv)[fv - 2 - m]? := by
  simp only [skeleton]
  rw [List.append_assoc, List.append_assoc]
  rw [List.getElem?_append_right (by rw [rsl_length]; omega), rsl_length]
  have h1 : sv + (fv - 1) + m - sv = (fv - 1) + m := by omega
  rw [h1, List.getElem?_append_right (by rw [List.length_drop, rcList_length]; omega),
    List.length_drop, rcList_length]
  have h2 : fv - 1 + m - (fv - 1) = m := by omega
  rw [h2, List.getElem?_append_left
      (by rw [List.length_drop, List.length_reverse, rcList_length]; omega),
    List.getElem?_drop, List.getElem?_reverse (by rw [rcList_length]; omega),
    rcList_length]
  have h3 : fv - 1 - (1 + m) = fv - 2 - m := by omega
  rw [h3]

theorem skeleton_r_D (alpha dj k : ℝ) (sv fv m : ℕ) (hfv : 1 ≤ fv) (hm : m < sv - 1) :
    (skeleton alpha dj sv fv k).2.1[sv + 2 * (fv - 1) + m]? =
      (rsl alpha dj k sv)[sv - 2 - m]? := by
  simp only [skeleton]
  rw [List.append_assoc, List.append_assoc]
  rw [List.getElem?_append_right (by rw [rsl_length]; omega), rsl_length]
  have h1 : sv + 2 * (fv - 1) + m - sv = (fv - 1) + ((fv - 1) + m) := by omega
  rw [h1, List.getElem?_append_right (by rw [List.length_drop, rcList_length]; omega),
    List.length_drop, rcList_length]
  have h2 : (fv - 1) + ((fv - 1) + m) - (fv - 1) = (fv - 1) + m := by omega
  rw [h2, List.getElem?_append_right
      (by rw [List.length_drop, List.length_reverse, rcList_length]; omega),
    List.length_drop, List.length_reverse, rcList_length]
  have h3 : fv - 1 + m - (fv - 1) = m := by omega
  rw [h3, List.getElem?_drop, List.getElem?_reverse (by rw [rsl_length]; omega),
    rsl_length]
  have h4 : sv - 1 - (1 + m) = sv - 2 - m := by omega
  rw [h4]

theorem skeleton_ca_A (alpha dj k : ℝ) (sv fv i : ℕ) (hi : i < sv) :
    (skeleton alpha dj sv fv k).2.2[i]? = some (-alpha) := by
  simp only [skeleton]
  rw [List.append_assoc, List.append_assoc]
  rw [List.getElem?_append_left (by rw [casl_length]; exact hi)]
  exact casl_getElem? alpha sv i hi

theorem skeleton_ca_B (alpha dj k : ℝ) (sv fv j : ℕ) (hfv : 2 ≤ fv) (hj : j < fv - 1) :
    (skeleton alpha dj sv fv k).2.2[sv + j]? = some (betaOf alpha fv (1 + j)) := by
  simp only [skeleton]
  rw [List.append_assoc, List.append_assoc]
  rw [List.getElem?_append_right (by rw [casl_length]; omega), casl_length]
  have h1 : sv + j - sv = j := by omega
  rw [h1, List.getElem?_append_left (by rw [List.length_drop, cacList_length]; omega),
    List.getElem?_drop]
  exact cacList_getElem? alpha fv (1 + j) hfv (by omega)

theorem skeleton_ca_C (alpha dj k : ℝ) (sv fv m : ℕ) (hfv : 2 ≤ fv) (hm : m < fv - 1) :
    (skeleton alpha dj sv fv k).2.2[sv + (fv - 1) + m]? =
      some (π - betaOf alpha fv (fv - 2 - m)) := by
  simp only [skeleton]
  rw [List.append_assoc, List.append_assoc]
  rw [List.getElem?_append_right (by rw [casl_length]; omega), casl_length]
  have h1 : sv + (fv - 1) + m - sv = (fv - 1) + m := by omega
  rw [h1, List.getElem?_append_right (by rw [List.length_drop, cacList_length]; omega),
    List.length_drop, cacList_length]
  have h2 : fv - 1 + m - (fv - 1) = m := by omega
  rw [h2, List.getElem?_append_left
      (by rw [List.length_map, List.length_drop, List.length_reverse, cacList_length]; omega),
    List.getElem?_map _ _ m, List.getElem?_drop,
    List.getElem?_reverse (by rw [cacList_length]; omega), cacList_length]
  have h3 : fv - 1 - (1 + m) = fv - 2 - m := by omega
  rw [h3, cacList_getElem? alpha fv (fv - 2 - m) hfv (by omega)]
  rfl

theorem skeleton_ca_D (alpha dj k : ℝ) (sv fv m : ℕ) (hfv : 1 ≤ fv) (hm : m < sv - 1) :
    (skeleton alpha dj sv fv k).2.2[sv + 2 * (fv - 1) + m]? = some (π - -alpha) := by
  simp only [skeleton]
  rw [List.append_assoc, List.append_assoc]
  rw [List.getElem?_append_right (by rw [casl_length]; omega), casl_length]
  have h1 : sv + 2 * (fv - 1) + m - sv = (fv - 1) + ((fv - 1) + m) := by omega
  rw [h1, List.getElem?_append_right (by rw [List.length_drop, cacList_length]; omega),
    List.length_drop, cacList_length]
  have h2 : (fv - 1) + ((fv - 1) + m) - (fv - 1) = (fv - 1) + m := by omega
  rw [h2, List.getElem?_append_right
      (by rw [List.length_map, List.length_drop, List.length_reverse, cacList_length]; omega),
    List.length_map, List.length_drop, List.length_reverse, cacList_length]
  have h3 : fv - 1 + m - (fv - 1) = m := by omega
  rw [h3, List.getElem?_map _ _ m, List.getElem?_drop,
    List.getElem?_reverse (by rw [casl_length]; omega), casl_length]
  rw [casl_getElem? alpha sv (sv - 1 - (1 + m)) (by omega)]
  rfl

/-! ### Mesh access -/

theorem gcs_mesh_def (alpha height k : ℝ) (sv fv cv : ℕ) :
    gcs_mesh alpha height sv fv cv k =
      ((meshUV sv fv cv).map (fun w =>
          meshPoint (skeleton alpha (distjuncOf alpha height k) sv fv k).1
            (skeleton alpha (distjuncOf alpha height k) sv fv k).2.1
            (skeleton alpha (distjuncOf alpha height k) sv fv k).2.2 w.2 w.1),
       (meshUV sv fv cv).map Prod.fst,
       (meshUV sv fv cv).map Prod.snd) := rfl

theorem meshUV_length (sv fv cv : ℕ) :
    (meshUV sv fv cv).length = ((fv + sv) * 2 - 3) * cv := by
  unfold meshUV
  exact length_flatMap_const _ cv
    (fun v => by rw [List.length_map, linspace_length]) _

theorem meshUV_getElem? (sv fv cv v i : ℕ) (hcv : 2 ≤ cv)
    (hv : v < (fv + sv) * 2 - 3) (hi : i < cv) :
    (meshUV sv fv cv)[v * cv + i]? =
      some (2 * π * (i : ℝ) / ((cv : ℝ) - 1), v) := by
  unfold meshUV
  rw [getElem?_flatMap_range _ cv
      (fun v => by rw [List.length_map, linspace_length]) _ v i hv hi,
    List.getElem?_map _ _ i, linspace_zero_getElem? _ _ _ hcv hi]
  rfl

/-- C10: for all positive vertex counts, the skeleton index range used inside
`gcs_mesh` (`pspace = arange(0, (front_vertices + straight_vertices)*2 - 3)`)
has exactly the length of the skeleton arrays `p`, `r`, `ca`, every value in
the returned flattened `v` index array is in bounds for those arrays, and the
returned mesh has exactly `circle_vertices * (2*straight_vertices +
2*front_vertices - 3)` points. -/
theorem C10_mesh_index_in_bounds (alpha height k : ℝ) (sv fv cv : ℕ)
    (hsv : 1 ≤ sv) (hfv : 1 ≤ fv) (hcv : 1 ≤ cv) :
    (fv + sv) * 2 - 3 = (skeleton alpha (distjuncOf alpha height k) sv fv k).1.length ∧
    (fv + sv) * 2 - 3 = (skeleton alpha (distjuncOf alpha height k) sv fv k).2.1.length ∧
    (fv + sv) * 2 - 3 = (skeleton alpha (distjuncOf alpha height k) sv fv k).2.2.length ∧
    (∀ x ∈ (gcs_mesh alpha height sv fv cv k).2.2,
      x < (skeleton alpha (distjuncOf alpha height k) sv fv k).1.length) ∧
    (gcs_mesh alpha height sv fv cv k).1.length = cv * (2 * sv + 2 * fv - 3) := by
  refine ⟨?_, ?_, ?_, ?_, ?_⟩
  · rw [skeleton_p_length _ _ _ _ _ hsv hfv]; omega
  · rw [skeleton_r_length _ _ _ _ _ hsv hfv]; omega
  · rw [skeleton_ca_length _ _ _ _ _ hsv hfv]; omega
  · intro x hx
    rw [gcs_mesh_def] at hx
    simp only [List.mem_map] at hx
    obtain ⟨w, hw, hwx⟩ := hx
    unfold meshUV at hw
    rw [List.mem_flatMap] at hw
    obtain ⟨a, ha, hwa⟩ := hw
    rw [List.mem_range] at ha
    rw [List.mem_map] at hwa
    obtain ⟨u, _, huw⟩ := hwa
    have hxa : x = a := by rw [← hwx, ← huw]
    rw [skeleton_p_length _ _ _ _ _ hsv hfv]
    omega
  · rw [gcs_mesh_def]
    simp only
    rw [List.length_map, meshUV_length]
    have hN : (fv + sv) * 2 - 3 = 2 * sv + 2 * fv - 3 := by omega
    rw [hN, Nat.mul_comm]

/-- C10 witness: concrete instance at `sv = fv = cv = 2`. -/
theorem C10_witness :
    (2 + 2) * 2 - 3 = (skeleton (π/4) (distjuncOf (π/4) 1 (1/2)) 2 2 (1/2)).1.length ∧
    (2 + 2) * 2 - 3 = (skeleton (π/4) (distjuncOf (π/4) 1 (1/2)) 2 2 (1/2)).2.1.length ∧
    (2 + 2) * 2 - 3 = (skeleton (π/4) (distjuncOf (π/4) 1 (1/2)) 2 2 (1/2)).2.2.length ∧
    (∀ x ∈ (gcs_mesh (π/4) 1 2 2 2 (1/2)).2.2,
      x < (skeleton (π/4) (distjuncOf (π/4) 1 (1/2)) 2 2 (1/2)).1.length) ∧
    (gcs_mesh (π/4) 1 2 2 2 (1/2)).1.length = 2 * (2 * 2 + 2 * 2 - 3) :=
  C10_mesh_index_in_bounds (π/4) 1 (1/2) 2 2 2 (by norm_num) (by norm_num) (by norm_num)

/-- C2: for every valid parameter set, the skeleton has exactly
`2*straight_vertices + 2*front_vertices - 3` samples and its first and last
positions are both exactly the origin `(0,0,0)`. -/
theorem C2_skeleton_length_endpoints (alpha dj k : ℝ) (sv fv : ℕ)
    (h1 : 0 < alpha) (h2 : alpha < π / 2) (h3 : 0 < dj)
    (h4 : 2 ≤ sv) (h5 : 2 ≤ fv) (h6 : 0 < k) (h7 : k < 1) :
    (skeleton alpha dj sv fv k).1.length = 2 * sv + 2 * fv - 3 ∧
    (skeleton alpha dj sv fv k).2.1.length = 2 * sv + 2 * fv - 3 ∧
    (skeleton alpha dj sv fv k).2.2.length = 2 * sv + 2 * fv - 3 ∧
    (skeleton alpha dj sv fv k).1.getD 0 (0, 0, 0) = (0, 0, 0) ∧
    (skeleton alpha dj sv fv k).1.getD (2 * sv + 2 * fv - 4) (0, 0, 0) = (0, 0, 0) := by
  refine ⟨skeleton_p_length _ _ _ _ _ (by omega) (by omega),
    skeleton_r_length _ _ _ _ _ (by omega) (by omega),
    skeleton_ca_length _ _ _ _ _ (by omega) (by omega), ?_, ?_⟩
  · rw [List.getD_eq_getElem?_getD, skeleton_p_A _ _ _ _ _ 0 (by omega),
      pslR_getElem? _ _ _ 0 h4 (by omega)]
    simp [tOf]
  · have hidx : 2 * sv + 2 * fv - 4 = sv + 2 * (fv - 1) + (sv - 2) := by omega
    rw [List.getD_eq_getElem?_getD, hidx,
      skeleton_p_D _ _ _ _ _ _ (by omega) (by omega)]
    have h0 : sv - 2 - (sv - 2) = 0 := by omega
    rw [h0, pslL_getElem? _ _ _ 0 h4 (by omega)]
    simp [tOf]

/-- C2 witness: concrete instance at `alpha = π/4`, `dj = 1`, `k = 1/2`,
`sv = fv = 2`. -/
theorem C2_witness :
    (skeleton (π/4) 1 2 2 (1/2)).1.length = 2 * 2 + 2 * 2 - 3 ∧
    (skeleton (π/4) 1 2 2 (1/2)).2.1.length = 2 * 2 + 2 * 2 - 3 ∧
    (skeleton (π/4) 1 2 2 (1/2)).2.2.length = 2 * 2 + 2 * 2 - 3 ∧
    (skeleton (π/4) 1 2 2 (1/2)).1.getD 0 (0, 0, 0) = (0, 0, 0) ∧
    (skeleton (π/4) 1 2 2 (1/2)).1.getD (2 * 2 + 2 * 2 - 4) (0, 0, 0) = (0, 0, 0) :=
  C2_skeleton_length_endpoints (π/4) 1 (1/2) 2 2 (by positivity)
    (by linarith [Real.pi_pos]) (by norm_num) (by norm_num) (by norm_num)
    (by norm_num) (by norm_num)

/-- C1: for every valid parameter set and every pair `(u, v)` with `u` the
`i`-th sweep-angle sample and `v` a skeleton index, the mesh produced by
`gcs_mesh` satisfies
`point(u,v) = r[v] * (cos u, sin u * cos ca[v], sin u * sin ca[v]) + p[v]`,
and the full output is the rectangular grid of all such pairs, of size
`circle_vertices * skeleton length`. -/
theorem C1_mesh_point_formula (alpha height k : ℝ) (sv fv cv : ℕ)
    (hsv : 2 ≤ sv) (hfv : 2 ≤ fv) (hcv : 2 ≤ cv) (v i : ℕ)
    (hv : v < 2 * sv + 2 * fv - 3) (hi : i < cv) :
    (gcs_mesh alpha height sv fv cv k).1.length = cv * (2 * sv + 2 * fv - 3) ∧
    (gcs_mesh alpha height sv fv cv k).1.getD (v * cv + i) (0, 0, 0) =
      ((skeleton alpha (distjuncOf alpha height k) sv fv k).2.1.getD v 0 *
          Real.cos (2 * π * (i : ℝ) / ((cv : ℝ) - 1)) +
        ((skeleton alpha (distjuncOf alpha height k) sv fv k).1.getD v (0, 0, 0)).1,
       (skeleton alpha (distjuncOf alpha height k) sv fv k).2.1.getD v 0 *
          (Real.sin (2 * π * (i : ℝ) / ((cv : ℝ) - 1)) *
            Real.cos ((skeleton alpha (distjuncOf alpha height k) sv fv k).2.2.getD v 0)) +
        ((skeleton alpha (distjuncOf alpha height k) sv fv k).1.getD v (0, 0, 0)).2.1,
       (skeleton alpha (distjuncOf alpha height k) sv fv k).2.1.getD v 0 *
          (Real.sin (2 * π * (i : ℝ) / ((cv : ℝ) - 1)) *
            Real.sin ((skeleton alpha (distjuncOf alpha height k) sv fv k).2.2.getD v 0)) +
        ((skeleton alpha (distjuncOf alpha height k) sv fv k).1.getD v (0, 0, 0)).2.2) := by
  constructor
  · rw [gcs_mesh_def]
    simp only
    rw [List.length_map, meshUV_length]
    have hN : (fv + sv) * 2 - 3 = 2 * sv + 2 * fv - 3 := by omega
    rw [hN, Nat.mul_comm]
  · rw [gcs_mesh_def]
    simp only
    rw [List.getD_eq_getElem?_getD, List.getElem?_map _ _ (v * cv + i),
      meshUV_getElem? sv fv cv v i hcv (by omega) hi]
    rfl

/-- C1 witness: concrete instance at `sv = fv = cv = 2`, `v = i = 0`. -/
theorem C1_witness :
    (gcs_mesh (π/4) 1 2 2 2 (1/2)).1.length = 2 * (2 * 2 + 2 * 2 - 3) ∧
    (gcs_mesh (π/4) 1 2 2 2 (1/2)).1.getD (0 * 2 + 0) (0, 0, 0) =
      ((skeleton (π/4) (distjuncOf (π/4) 1 (1/2)) 2 2 (1/2)).2.1.getD 0 0 *
          Real.cos (2 * π * ((0 : ℕ) : ℝ) / (((2 : ℕ) : ℝ) - 1)) +
        ((skeleton (π/4) (distjuncOf (π/4) 1 (1/2)) 2 2 (1/2)).1.getD 0 (0, 0, 0)).1,
       (skeleton (π/4) (distjuncOf (π/4) 1 (1/2)) 2 2 (1/2)).2.1.getD 0 0 *
          (Real.sin (2 * π * ((0 : ℕ) : ℝ) / (((2 : ℕ) : ℝ) - 1)) *
            Real.cos ((skeleton (π/4) (distjuncOf (π/4) 1 (1/2)) 2 2 (1/2)).2.2.getD 0 0)) +
        ((skeleton (π/4) (distjuncOf (π/4) 1 (1/2)) 2 2 (1/2)).1.getD 0 (0, 0, 0)).2.1,
       (skeleton (π/4) (distjuncOf (π/4) 1 (1/2)) 2 2 (1/2)).2.1.getD 0 0 *
          (Real.sin (2 * π * ((0 : ℕ) : ℝ) / (((2 : ℕ) : ℝ) - 1)) *
            Real.sin ((skeleton (π/4) (distjuncOf (π/4) 1 (1/2)) 2 2 (1/2)).2.2.getD 0 0)) +
        ((skeleton (π/4) (distjuncOf (π/4) 1 (1/2)) 2 2 (1/2)).1.getD 0 (0, 0, 0)).2.2) :=
  C1_mesh_point_formula (π/4) 1 (1/2) 2 2 2 (by norm_num) (by norm_num)
    (by norm_num) 0 0 (by norm_num) (by norm_num)

/-- C5: for every mesh produced by `gcs_mesh` from valid parameters and every
fixed skeleton index `v`, the mesh point at the first sweep sample (`u = 0`)
equals the mesh point at the last sweep sample (`u = 2*pi`): the cross-section
ring closes exactly. -/
theorem C5_ring_closure (alpha height k : ℝ) (sv fv cv : ℕ)
    (hsv : 2 ≤ sv) (hfv : 2 ≤ fv) (hcv : 2 ≤ cv) (v : ℕ)
    (hv : v < 2 * sv + 2 * fv - 3) :
    (gcs_mesh alpha height sv fv cv k).1.getD (v * cv) (0, 0, 0) =
      (gcs_mesh alpha height sv fv cv k).1.getD (v * cv + (cv - 1)) (0, 0, 0) := by
  rw [gcs_mesh_def]
  simp only
  rw [List.getD_eq_getElem?_getD, List.getD_eq_getElem?_getD,
    List.getElem?_map _ _ (v * cv), List.getElem?_map _ _ (v * cv + (cv - 1))]
  have e0 : (meshUV sv fv cv)[v * cv]? =
      some (2 * π * ((0 : ℕ) : ℝ) / ((cv : ℝ) - 1), v) := by
    have h := meshUV_getElem? sv fv cv v 0 hcv (by omega) (by omega)
    simpa using h
  have e1 := meshUV_getElem? sv fv cv v (cv - 1) hcv (by omega) (by omega)
  rw [e0, e1]
  simp only [Option.map_some', Option.getD_some]
  unfold meshPoint
  have hu0 : 2 * π * ((0 : ℕ) : ℝ) / ((cv : ℝ) - 1) = 0 := by norm_num
  have hc : ((cv - 1 : ℕ) : ℝ) = (cv : ℝ) - 1 := by
    rw [Nat.cast_sub (by omega : 1 ≤ cv), Nat.cast_one]
  have hcv1 : ((cv : ℝ) - 1) ≠ 0 := by
    have h2 : (2 : ℝ) ≤ (cv : ℝ) := by exact_mod_cast hcv
    linarith
  have hu1 : 2 * π * ((cv - 1 : ℕ) : ℝ) / ((cv : ℝ) - 1) = 2 * π := by
    rw [hc]
    field_simp
  rw [hu0, hu1, Real.cos_zero, Real.sin_zero, Real.cos_two_pi, Real.sin_two_pi]

/-- C5 witness: concrete instance at `sv = fv = cv = 2`, `v = 0`. -/
theorem C5_witness :
    (gcs_mesh (π/4) 1 2 2 2 (1/2)).1.getD (0 * 2) (0, 0, 0) =
      (gcs_mesh (π/4) 1 2 2 2 (1/2)).1.getD (0 * 2 + (2 - 1)) (0, 0, 0) :=
  C5_ring_closure (π/4) 1 (1/2) 2 2 2 (by norm_num) (by norm_num) (by norm_num)
    0 (by norm_num)

/-! ### Pointwise values at distinguished parameters -/

theorem betaOf_zero (alpha : ℝ) (fv : ℕ) : betaOf alpha fv 0 = -alpha := by
  unfold betaOf
  norm_num

theorem betaOf_last (alpha : ℝ) (fv : ℕ) (hfv : 2 ≤ fv) :
    betaOf alpha fv (fv - 1) = π / 2 := by
  unfold betaOf
  have hc : ((fv - 1 : ℕ) : ℝ) = (fv : ℝ) - 1 := by
    rw [Nat.cast_sub (by omega : 1 ≤ fv), Nat.cast_one]
  have hne : ((fv : ℝ) - 1) ≠ 0 := by
    have h2 : (2 : ℝ) ≤ (fv : ℝ) := by exact_mod_cast hfv
    linarith
  rw [hc]
  field_simp
  ring

theorem tOf_last (dj : ℝ) (sv : ℕ) (hsv : 2 ≤ sv) : tOf dj sv (sv - 1) = dj := by
  unfold tOf
  have hc : ((sv - 1 : ℕ) : ℝ) = (sv : ℝ) - 1 := by
    rw [Nat.cast_sub (by omega : 1 ≤ sv), Nat.cast_one]
  have hne : ((sv : ℝ) - 1) ≠ 0 := by
    have h2 : (2 : ℝ) ≤ (sv : ℝ) := by exact_mod_cast hsv
    linarith
  rw [hc]
  field_simp

theorem X0f_at_neg_alpha (alpha dj k : ℝ) (hcos : Real.cos alpha ≠ 0)
    (hk : 1 - k ^ 2 ≠ 0) : X0f alpha dj k (-alpha) = dj * Real.tan alpha := by
  unfold X0f rhoOf hOf
  rw [Real.sin_neg, Real.tan_eq_sin_div_cos]
  field_simp
  ring

/-- At `beta = -alpha`, the front-arc sample coincides with the leg tip
`distjunc * (0, sin alpha, cos alpha)`. -/
theorem pcRf_at_neg_alpha (alpha dj k : ℝ) (hcos : Real.cos alpha ≠ 0)
    (hk : 1 - k ^ 2 ≠ 0) :
    pcRf alpha dj k (-alpha) = (0, dj * Real.sin alpha, dj * Real.cos alpha) := by
  unfold pcRf
  rw [X0f_at_neg_alpha alpha dj k hcos hk, Real.cos_neg, Real.sin_neg]
  unfold hOf
  rw [Real.tan_eq_sin_div_cos]
  have hy : dj * (Real.sin alpha / Real.cos alpha) * Real.cos alpha
      = dj * Real.sin alpha := by
    field_simp
  have hz : dj / Real.cos alpha
        + dj * (Real.sin alpha / Real.cos alpha) * -Real.sin alpha
      = dj * Real.cos alpha := by
    field_simp
    linear_combination (-dj) * Real.sin_sq_add_cos_sq alpha
  rw [hy, hz]

theorem pcLf_eq_mirror (alpha dj k beta : ℝ) :
    pcLf alpha dj k beta = mirror1 (pcRf alpha dj k beta) := rfl

/-- C3: for every valid parameter set, the skeleton's left-leg positions are
the exact mirror images of the right-leg positions under sign-flip of axis 1,
the front-arc left-half positions mirror the right-half the same way, and the
left-half cross-section angles satisfy `ca_left = pi - ca_right` at each
front-arc parameter. -/
theorem C3_skeleton_mirror_symmetry (alpha dj k : ℝ) (sv fv : ℕ)
    (h1 : 0 < alpha) (h2 : alpha < π / 2) (h3 : 0 < dj)
    (h4 : 2 ≤ sv) (h5 : 2 ≤ fv) (h6 : 0 < k) (h7 : k < 1) :
    (∀ i < sv - 1,
      (skeleton alpha dj sv fv k).1.getD (2 * sv + 2 * fv - 4 - i) (0, 0, 0) =
        mirror1 ((skeleton alpha dj sv fv k).1.getD i (0, 0, 0))) ∧
    (∀ j < fv,
      (skeleton alpha dj sv fv k).1.getD (sv + 2 * fv - 3 - j) (0, 0, 0) =
        mirror1 ((skeleton alpha dj sv fv k).1.getD (sv - 1 + j) (0, 0, 0))) ∧
    (∀ j < fv,
      (skeleton alpha dj sv fv k).2.2.getD (sv + 2 * fv - 3 - j) 0 =
        π - (skeleton alpha dj sv fv k).2.2.getD (sv - 1 + j) 0) := by
  have hcos : Real.cos alpha ≠ 0 := by
    have := Real.cos_pos_of_mem_Ioo (show alpha ∈ Set.Ioo (-(π/2)) (π/2) from
      ⟨by linarith [Real.pi_pos], h2⟩)
    linarith
  have hk2 : 1 - k ^ 2 ≠ 0 := by nlinarith
  refine ⟨?_, ?_, ?_⟩
  · -- leg mirror
    intro i hi
    have hidx : 2 * sv + 2 * fv - 4 - i = sv + 2 * (fv - 1) + (sv - 2 - i) := by omega
    rw [List.getD_eq_getElem?_getD, List.getD_eq_getElem?_getD, hidx,
      skeleton_p_D _ _ _ _ _ _ (by omega) (by omega),
      skeleton_p_A _ _ _ _ _ i (by omega)]
    have hii : sv - 2 - (sv - 2 - i) = i := by omega
    rw [hii, pslL_getElem? _ _ _ i h4 (by omega), pslR_getElem? _ _ _ i h4 (by omega)]
    simp only [Option.getD_some, mirror1, Prod.mk.injEq]
    norm_num
  · -- front-arc mirror
    intro j hj
    by_cases hjl : j = fv - 1
    · subst hjl
      have hiL : sv + 2 * fv - 3 - (fv - 1) = sv + (fv - 2) := by omega
      have hiR : sv - 1 + (fv - 1) = sv + (fv - 2) := by omega
      rw [List.getD_eq_getElem?_getD, List.getD_eq_getElem?_getD, hiL, hiR,
        skeleton_p_B _ _ _ _ _ _ (by omega)]
      have hjj : 1 + (fv - 2) = fv - 1 := by omega
      rw [hjj, pcRList_getElem? _ _ _ _ _ h5 (by omega), betaOf_last _ _ h5]
      simp [Option.getD_some, mirror1, pcRf, Real.cos_pi_div_two]
    · by_cases hj0 : j = 0
      · subst hj0
        have hiL : sv + 2 * fv - 3 - 0 = sv + (fv - 1) + (fv - 2) := by omega
        have hiR : sv - 1 + 0 = sv - 1 := by omega
        rw [List.getD_eq_getElem?_getD, List.getD_eq_getElem?_getD, hiL, hiR,
          skeleton_p_C _ _ _ _ _ _ (by omega),
          skeleton_p_A _ _ _ _ _ (sv - 1) (by omega)]
        have hjj : fv - 2 - (fv - 2) = 0 := by omega
        rw [hjj, pcLList_getElem? _ _ _ _ _ h5 (by omega),
          pslR_getElem? _ _ _ (sv - 1) h4 (by omega), tOf_last _ _ h4, betaOf_zero,
          pcLf_eq_mirror, pcRf_at_neg_alpha alpha dj k hcos hk2]
        simp [Option.getD_some, mirror1]
      · have hiL : sv + 2 * fv - 3 - j = sv + (fv - 1) + (fv - 2 - j) := by omega
        have hiR : sv - 1 + j = sv + (j - 1) := by omega
        rw [List.getD_eq_getElem?_getD, List.getD_eq_getElem?_getD, hiL, hiR,
          skeleton_p_C _ _ _ _ _ _ (by omega),
          skeleton_p_B _ _ _ _ _ _ (by omega)]
        have hjL : fv - 2 - (fv - 2 - j) = j := by omega
        have hjR : 1 + (j - 1) = j := by omega
        rw [hjL, hjR, pcLList_getElem? _ _ _ _ _ h5 (by omega),
          pcRList_getElem? _ _ _ _ _ h5 (by omega), pcLf_eq_mirror]
        rfl
  · -- cross-section angle reflection
    intro j hj
    by_cases hjl : j = fv - 1
    · subst hjl
      have hiL : sv + 2 * fv - 3 - (fv - 1) = sv + (fv - 2) := by omega
      have hiR : sv - 1 + (fv - 1) = sv + (fv - 2) := by omega
      rw [List.getD_eq_getElem?_getD, List.getD_eq_getElem?_getD, hiL, hiR,
        skeleton_ca_B _ _ _ _ _ _ h5 (by omega)]
      have hjj : 1 + (fv - 2) = fv - 1 := by omega
      rw [hjj, betaOf_last _ _ h5]
      simp only [Option.getD_some]
      ring
    · by_cases hj0 : j = 0
      · subst hj0
        have hiL : sv + 2 * fv - 3 - 0 = sv + (fv - 1) + (fv - 2) := by omega
        have hiR : sv - 1 + 0 = sv - 1 := by omega
        rw [List.getD_eq_getElem?_getD, List.getD_eq_getElem?_getD, hiL, hiR,
          skeleton_ca_C _ _ _ _ _ _ h5 (by omega),
          skeleton_ca_A _ _ _ _ _ (sv - 1) (by omega)]
        have hjj : fv - 2 - (fv - 2) = 0 := by omega
        rw [hjj, betaOf_zero]
        simp only [Option.getD_some]
      · have hiL : sv + 2 * fv - 3 - j = sv + (fv - 1) + (fv - 2 - j) := by omega
        have hiR : sv - 1 + j = sv + (j - 1) := by omega
        rw [List.getD_eq_getElem?_getD, List.getD_eq_getElem?_getD, hiL, hiR,
          skeleton_ca_C _ _ _ _ _ _ h5 (by omega),
          skeleton_ca_B _ _ _ _ _ _ h5 (by omega)]
        have hjL : fv - 2 - (fv - 2 - j) = j := by omega
        have hjR : 1 + (j - 1) = j := by omega
        rw [hjL, hjR]
        simp only [Option.getD_some]

/-- C3 witness: the junction mirror instance at concrete parameters. -/
theorem C3_witness :
    (skeleton (π/4) 1 2 2 (1/2)).1.getD (2 + 2 * 2 - 3 - 0) (0, 0, 0) =
      mirror1 ((skeleton (π/4) 1 2 2 (1/2)).1.getD (2 - 1 + 0) (0, 0, 0)) :=
  (C3_skeleton_mirror_symmetry (π/4) 1 (1/2) 2 2 (by positivity)
    (by linarith [Real.pi_pos]) (by norm_num) (by norm_num) (by norm_num)
    (by norm_num) (by norm_num)).2.1 0 (by norm_num)

theorem norm3_leg (alpha dj : ℝ) (h3 : 0 ≤ dj) :
    norm3 (dj * 0, dj * Real.sin alpha, dj * Real.cos alpha) = dj := by
  unfold norm3
  have h : (dj * 0) ^ 2 + (dj * Real.sin alpha) ^ 2 + (dj * Real.cos alpha) ^ 2
      = dj ^ 2 := by
    linear_combination dj ^ 2 * Real.sin_sq_add_cos_sq alpha
  rw [h, Real.sqrt_sq h3]

/-- At `beta = -alpha`, the front-arc radius equals the straight-leg radius
at the junction, `k / sqrt(1-k^2) * distjunc`. -/
theorem rcf_at_neg_alpha (alpha dj k : ℝ) (hcos : Real.cos alpha ≠ 0)
    (h3 : 0 ≤ dj) (h6 : 0 ≤ k) (hpos : 0 < 1 - k ^ 2) :
    rcf alpha dj k (-alpha) = k / Real.sqrt (1 - k ^ 2) * dj := by
  unfold rcf
  rw [X0f_at_neg_alpha alpha dj k hcos (by linarith)]
  unfold hOf rhoOf
  rw [Real.tan_eq_sin_div_cos]
  have hinner : ((dj / Real.cos alpha) ^ 2 * k ^ 2
        - (dj * (Real.sin alpha / Real.cos alpha)) ^ 2) / (1 - k ^ 2)
        + (dj * (Real.sin alpha / Real.cos alpha)) ^ 2
      = dj ^ 2 * k ^ 2 / (1 - k ^ 2) := by
    field_simp
    linear_combination (-(dj ^ 2 * k ^ 2 * (1 - k ^ 2) * Real.cos alpha ^ 2)) *
      Real.sin_sq_add_cos_sq alpha
  rw [hinner]
  have hsq : dj ^ 2 * k ^ 2 / (1 - k ^ 2) = (k / Real.sqrt (1 - k ^ 2) * dj) ^ 2 := by
    rw [mul_pow, div_pow, Real.sq_sqrt hpos.le]
    ring
  rw [hsq, Real.sqrt_sq (by positivity)]

theorem X0f_sub (alpha dj k b1 b2 : ℝ) (hcos : Real.cos alpha ≠ 0)
    (hk : 1 - k ^ 2 ≠ 0) :
    X0f alpha dj k b1 - X0f alpha dj k b2
      = dj / Real.cos alpha * k ^ 2 * (Real.sin b1 - Real.sin b2) / (1 - k ^ 2) := by
  unfold X0f hOf rhoOf
  field_simp
  ring

theorem X0f_neg_alpha_pos (alpha dj k : ℝ) (h1 : 0 < alpha) (h2 : alpha < π / 2)
    (h3 : 0 < dj) (hcos : Real.cos alpha ≠ 0) (hk : 1 - k ^ 2 ≠ 0) :
    0 < X0f alpha dj k (-alpha) := by
  rw [X0f_at_neg_alpha alpha dj k hcos hk]
  exact mul_pos h3 (Real.tan_pos_of_pos_of_lt_pi_div_two h1 h2)

theorem betaOf_le_pi_div_two (alpha : ℝ) (fv j : ℕ) (h1 : 0 < alpha)
    (hfv : 2 ≤ fv) (hj : j ≤ fv - 1) : betaOf alpha fv j ≤ π / 2 := by
  unfold betaOf
  have hc : (0 : ℝ) < (fv : ℝ) - 1 := by
    have h : (2 : ℝ) ≤ (fv : ℝ) := by exact_mod_cast hfv
    linarith
  have hx : (j : ℝ) ≤ (fv : ℝ) - 1 := by
    have h : (j : ℝ) ≤ ((fv - 1 : ℕ) : ℝ) := by exact_mod_cast hj
    rwa [Nat.cast_sub (by omega), Nat.cast_one] at h
  have hterm : (π / 2 + alpha) * (j : ℝ) / ((fv : ℝ) - 1) ≤ π / 2 + alpha := by
    rw [div_le_iff hc]
    nlinarith [Real.pi_pos]
  linarith

theorem betaOf_lt_pi_div_two (alpha : ℝ) (fv j : ℕ) (h1 : 0 < alpha)
    (hfv : 2 ≤ fv) (hj : j < fv - 1) : betaOf alpha fv j < π / 2 := by
  unfold betaOf
  have hc : (0 : ℝ) < (fv : ℝ) - 1 := by
    have h : (2 : ℝ) ≤ (fv : ℝ) := by exact_mod_cast hfv
    linarith
  have hx : (j : ℝ) < (fv : ℝ) - 1 := by
    have h : (j : ℝ) < ((fv - 1 : ℕ) : ℝ) := by exact_mod_cast hj
    rwa [Nat.cast_sub (by omega), Nat.cast_one] at h
  have hterm : (π / 2 + alpha) * (j : ℝ) / ((fv : ℝ) - 1) < π / 2 + alpha := by
    rw [div_lt_iff hc]
    nlinarith [Real.pi_pos]
  linarith

theorem neg_alpha_le_betaOf (alpha : ℝ) (fv j : ℕ) (h1 : 0 < alpha)
    (hfv : 2 ≤ fv) : -alpha ≤ betaOf alpha fv j := by
  unfold betaOf
  have hc : (0 : ℝ) < (fv : ℝ) - 1 := by
    have h : (2 : ℝ) ≤ (fv : ℝ) := by exact_mod_cast hfv
    linarith
  have hterm : 0 ≤ (π / 2 + alpha) * (j : ℝ) / ((fv : ℝ) - 1) :=
    div_nonneg (mul_nonneg (by linarith [Real.pi_pos]) (Nat.cast_nonneg j)) hc.le
  linarith

theorem neg_alpha_lt_betaOf (alpha : ℝ) (fv j : ℕ) (h1 : 0 < alpha)
    (hfv : 2 ≤ fv) (hj : 1 ≤ j) : -alpha < betaOf alpha fv j := by
  unfold betaOf
  have hc : (0 : ℝ) < (fv : ℝ) - 1 := by
    have h : (2 : ℝ) ≤ (fv : ℝ) := by exact_mod_cast hfv
    linarith
  have hjr : (0 : ℝ) < (j : ℝ) := by exact_mod_cast hj
  have hterm : 0 < (π / 2 + alpha) * (j : ℝ) / ((fv : ℝ) - 1) :=
    div_pos (mul_pos (by linarith [Real.pi_pos]) hjr) hc
  linarith

/-- After assembly, the last straight-leg point and the first kept front-arc
point (at `beta_1`) are distinct. -/
theorem junction_right_ne (alpha dj k : ℝ) (sv fv : ℕ)
    (h1 : 0 < alpha) (h2 : alpha < π / 2) (h3 : 0 < dj)
    (h4 : 2 ≤ sv) (h5 : 2 ≤ fv) (h6 : 0 < k) (h7 : k < 1) :
    (skeleton alpha dj sv fv k).1.getD (sv - 1) (0, 0, 0) ≠
      (skeleton alpha dj sv fv k).1.getD sv (0, 0, 0) := by
  have hcospos : 0 < Real.cos alpha :=
    Real.cos_pos_of_mem_Ioo ⟨by linarith [Real.pi_pos], h2⟩
  have hcos : Real.cos alpha ≠ 0 := ne_of_gt hcospos
  have hk2 : (0 : ℝ) < 1 - k ^ 2 := by nlinarith
  have hk2' : (1 : ℝ) - k ^ 2 ≠ 0 := ne_of_gt hk2
  rw [List.getD_eq_getElem?_getD, List.getD_eq_getElem?_getD,
    skeleton_p_A _ _ _ _ _ (sv - 1) (by omega)]
  have hB := skeleton_p_B alpha dj k sv fv 0 (by omega)
  rw [Nat.add_zero] at hB
  norm_num at hB
  rw [hB, pslR_getElem? _ _ _ (sv - 1) h4 (by omega), tOf_last _ _ h4,
    pcRList_getElem? _ _ _ _ _ h5 (by omega)]
  simp only [Option.getD_some]
  intro heq
  have q2 : dj * Real.sin alpha
      = X0f alpha dj k (betaOf alpha fv 1) * Real.cos (betaOf alpha fv 1) :=
    congrArg (fun w : V3 => w.2.1) heq
  have q3 : dj * Real.cos alpha
      = hOf alpha dj + X0f alpha dj k (betaOf alpha fv 1) * Real.sin (betaOf alpha fv 1) :=
    congrArg (fun w : V3 => w.2.2) heq
  have e := pcRf_at_neg_alpha alpha dj k hcos hk2'
  have e2 : X0f alpha dj k (-alpha) * Real.cos (-alpha) = dj * Real.sin alpha :=
    congrArg (fun w : V3 => w.2.1) e
  have e3 : hOf alpha dj + X0f alpha dj k (-alpha) * Real.sin (-alpha)
      = dj * Real.cos alpha :=
    congrArg (fun w : V3 => w.2.2) e
  have c1 : X0f alpha dj k (-alpha) * Real.cos (-alpha)
      = X0f alpha dj k (betaOf alpha fv 1) * Real.cos (betaOf alpha fv 1) := by
    rw [e2, q2]
  have c2 : X0f alpha dj k (-alpha) * Real.sin (-alpha)
      = X0f alpha dj k (betaOf alpha fv 1) * Real.sin (betaOf alpha fv 1) := by
    have h := e3.trans q3
    linarith
  have hb1lo : -alpha < betaOf alpha fv 1 := neg_alpha_lt_betaOf alpha fv 1 h1 h5 (by omega)
  have hb1hi : betaOf alpha fv 1 ≤ π / 2 := betaOf_le_pi_div_two alpha fv 1 h1 h5 (by omega)
  have hsin_lt : Real.sin (-alpha) < Real.sin (betaOf alpha fv 1) := by
    have hpi := Real.pi_pos
    exact Real.strictMonoOn_sin ⟨by linarith, by linarith⟩
      ⟨by linarith, hb1hi⟩ hb1lo
  have hX0pos := X0f_neg_alpha_pos alpha dj k h1 h2 h3 hcos hk2'
  have hX0lt : X0f alpha dj k (-alpha) < X0f alpha dj k (betaOf alpha fv 1) := by
    have hd := X0f_sub alpha dj k (betaOf alpha fv 1) (-alpha) hcos hk2'
    have hp : 0 < dj / Real.cos alpha * k ^ 2 *
        (Real.sin (betaOf alpha fv 1) - Real.sin (-alpha)) / (1 - k ^ 2) :=
      div_pos (mul_pos (mul_pos (div_pos h3 hcospos) (pow_pos h6 2))
        (sub_pos.mpr hsin_lt)) hk2
    linarith
  have s1 := Real.sin_sq_add_cos_sq (-alpha)
  have s2 := Real.sin_sq_add_cos_sq (betaOf alpha fv 1)
  have key : X0f alpha dj k (-alpha) ^ 2 = X0f alpha dj k (betaOf alpha fv 1) ^ 2 := by
    linear_combination (-(X0f alpha dj k (-alpha) ^ 2)) * s1
      + X0f alpha dj k (betaOf alpha fv 1) ^ 2 * s2
      + (X0f alpha dj k (-alpha) * Real.cos (-alpha)
          + X0f alpha dj k (betaOf alpha fv 1) * Real.cos (betaOf alpha fv 1)) * c1
      + (X0f alpha dj k (-alpha) * Real.sin (-alpha)
          + X0f alpha dj k (betaOf alpha fv 1) * Real.sin (betaOf alpha fv 1)) * c2
  nlinarith [key, hX0pos, hX0lt,
    mul_pos (sub_pos.mpr hX0lt)
      (by linarith : (0 : ℝ) < X0f alpha dj k (betaOf alpha fv 1) + X0f alpha dj k (-alpha))]

/-- After assembly, the apex point (at `beta = pi/2`) and the first kept
left-front point are distinct. -/
theorem junction_apex_ne (alpha dj k : ℝ) (sv fv : ℕ)
    (h1 : 0 < alpha) (h2 : alpha < π / 2) (h3 : 0 < dj)
    (h4 : 2 ≤ sv) (h5 : 2 ≤ fv) (h6 : 0 < k) (h7 : k < 1) :
    (skeleton alpha dj sv fv k).1.getD (sv + fv - 2) (0, 0, 0) ≠
      (skeleton alpha dj sv fv k).1.getD (sv + fv - 1) (0, 0, 0) := by
  have hcospos : 0 < Real.cos alpha :=
    Real.cos_pos_of_mem_Ioo ⟨by linarith [Real.pi_pos], h2⟩
  have hcos : Real.cos alpha ≠ 0 := ne_of_gt hcospos
  have hk2 : (0 : ℝ) < 1 - k ^ 2 := by nlinarith
  have hk2' : (1 : ℝ) - k ^ 2 ≠ 0 := ne_of_gt hk2
  have hpi := Real.pi_pos
  have hiB : sv + fv - 2 = sv + (fv - 2) := by omega
  have hiC : sv + fv - 1 = sv + (fv - 1) + 0 := by omega
  rw [List.getD_eq_getElem?_getD, List.getD_eq_getElem?_getD, hiB, hiC,
    skeleton_p_B _ _ _ _ _ _ (by omega), skeleton_p_C _ _ _ _ _ _ (by omega)]
  have hjB : 1 + (fv - 2) = fv - 1 := by omega
  have hjC : fv - 2 - 0 = fv - 2 := by omega
  rw [hjB, hjC, pcRList_getElem? _ _ _ _ _ h5 (by omega),
    pcLList_getElem? _ _ _ _ _ h5 (by omega), betaOf_last _ _ h5]
  simp only [Option.getD_some]
  intro heq
  have q3 : hOf alpha dj + X0f alpha dj k (π / 2) * Real.sin (π / 2)
      = hOf alpha dj + X0f alpha dj k (betaOf alpha fv (fv - 2)) *
          Real.sin (betaOf alpha fv (fv - 2)) :=
    congrArg (fun w : V3 => w.2.2) heq
  rw [Real.sin_pi_div_two] at q3
  have hglt : betaOf alpha fv (fv - 2) < π / 2 :=
    betaOf_lt_pi_div_two alpha fv (fv - 2) h1 h5 (by omega)
  have hgge : -alpha ≤ betaOf alpha fv (fv - 2) := neg_alpha_le_betaOf alpha fv (fv - 2) h1 h5
  have hsinle : Real.sin (-alpha) ≤ Real.sin (betaOf alpha fv (fv - 2)) :=
    Real.strictMonoOn_sin.monotoneOn ⟨by linarith, by linarith⟩
      ⟨by linarith, hglt.le⟩ hgge
  have hsinlt1 : Real.sin (betaOf alpha fv (fv - 2)) < 1 := by
    have h := Real.strictMonoOn_sin (a := betaOf alpha fv (fv - 2)) (b := π / 2)
      ⟨by linarith, hglt.le⟩ ⟨by linarith, le_refl _⟩ hglt
    rwa [Real.sin_pi_div_two] at h
  have hX0negpos := X0f_neg_alpha_pos alpha dj k h1 h2 h3 hcos hk2'
  have hX0gpos : 0 < X0f alpha dj k (betaOf alpha fv (fv - 2)) := by
    have hd := X0f_sub alpha dj k (betaOf alpha fv (fv - 2)) (-alpha) hcos hk2'
    have hp : 0 ≤ dj / Real.cos alpha * k ^ 2 *
        (Real.sin (betaOf alpha fv (fv - 2)) - Real.sin (-alpha)) / (1 - k ^ 2) :=
      div_nonneg (mul_nonneg (mul_nonneg (div_pos h3 hcospos).le (pow_pos h6 2).le)
        (by linarith)) hk2.le
    linarith
  have hX0le : X0f alpha dj k (betaOf alpha fv (fv - 2)) ≤ X0f alpha dj k (π / 2) := by
    have hd := X0f_sub alpha dj k (π / 2) (betaOf alpha fv (fv - 2)) hcos hk2'
    have hsle : Real.sin (betaOf alpha fv (fv - 2)) ≤ Real.sin (π / 2) := by
      rw [Real.sin_pi_div_two]
      exact hsinlt1.le
    have hp : 0 ≤ dj / Real.cos alpha * k ^ 2 *
        (Real.sin (π / 2) - Real.sin (betaOf alpha fv (fv - 2))) / (1 - k ^ 2) :=
      div_nonneg (mul_nonneg (mul_nonneg (div_pos h3 hcospos).le (pow_pos h6 2).le)
        (by linarith)) hk2.le
    linarith
  nlinarith [q3, hX0le, mul_lt_mul_of_pos_left hsinlt1 hX0gpos]

/-- After assembly, the last kept left-front point (at `beta = -alpha`) and
the first left-leg point are distinct. -/
theorem junction_left_ne (alpha dj k : ℝ) (sv fv : ℕ)
    (h1 : 0 < alpha) (h2 : alpha < π / 2) (h3 : 0 < dj)
    (h4 : 2 ≤ sv) (h5 : 2 ≤ fv) (h6 : 0 < k) (h7 : k < 1) :
    (skeleton alpha dj sv fv k).1.getD (sv + 2 * fv - 3) (0, 0, 0) ≠
      (skeleton alpha dj sv fv k).1.getD (sv + 2 * fv - 2) (0, 0, 0) := by
  have hcospos : 0 < Real.cos alpha :=
    Real.cos_pos_of_mem_Ioo ⟨by linarith [Real.pi_pos], h2⟩
  have hcos : Real.cos alpha ≠ 0 := ne_of_gt hcospos
  have hk2 : (0 : ℝ) < 1 - k ^ 2 := by nlinarith
  have hk2' : (1 : ℝ) - k ^ 2 ≠ 0 := ne_of_gt hk2
  have hiC : sv + 2 * fv - 3 = sv + (fv - 1) + (fv - 2) := by omega
  have hiD : sv + 2 * fv - 2 = sv + 2 * (fv - 1) + 0 := by omega
  rw [List.getD_eq_getElem?_getD, List.getD_eq_getElem?_getD, hiC, hiD,
    skeleton_p_C _ _ _ _ _ _ (by omega),
    skeleton_p_D _ _ _ _ _ _ (by omega) (by omega)]
  have hjC : fv - 2 - (fv - 2) = 0 := by omega
  have hjD : sv - 2 - 0 = sv - 2 := by omega
  rw [hjC, hjD, pcLList_getElem? _ _ _ _ _ h5 (by omega),
    pslL_getElem? _ _ _ (sv - 2) h4 (by omega), betaOf_zero, pcLf_eq_mirror,
    pcRf_at_neg_alpha alpha dj k hcos hk2']
  simp only [Option.getD_some]
  intro heq
  have q3 : dj * Real.cos alpha = tOf dj sv (sv - 2) * Real.cos alpha :=
    congrArg (fun w : V3 => w.2.2) heq
  have ht : tOf dj sv (sv - 2) < dj := by
    unfold tOf
    have hc2 : ((sv - 2 : ℕ) : ℝ) = (sv : ℝ) - 2 := by
      have h := Nat.cast_sub (R := ℝ) (show 2 ≤ sv from h4)
      simpa using h
    rw [hc2]
    have hs1 : (0 : ℝ) < (sv : ℝ) - 1 := by
      have h : (2 : ℝ) ≤ (sv : ℝ) := by exact_mod_cast h4
      linarith
    rw [div_lt_iff hs1]
    nlinarith
  have hdt : dj = tOf dj sv (sv - 2) := mul_right_cancel₀ hcos q3
  linarith

/-- C4: for every valid parameter set, the skeleton is continuous at the
straight/front junction — the first front-arc sample (`beta = -alpha`) has
the same position, cross-section radius, and cross-section angle as the last
straight-leg sample (`t = junction_distance`) — and after assembly (which
drops that duplicated sample) no two consecutive skeleton points at the
interior junctions coincide. -/
theorem C4_junction_continuity (alpha dj k : ℝ) (sv fv : ℕ)
    (h1 : 0 < alpha) (h2 : alpha < π / 2) (h3 : 0 < dj)
    (h4 : 2 ≤ sv) (h5 : 2 ≤ fv) (h6 : 0 < k) (h7 : k < 1) :
    (pslR alpha dj sv)[sv - 1]? = (pcRList alpha dj k fv)[0]? ∧
    (rsl alpha dj k sv)[sv - 1]? = (rcList alpha dj k fv)[0]? ∧
    (casl alpha sv)[sv - 1]? = (cacList alpha fv)[0]? ∧
    (skeleton alpha dj sv fv k).1.getD (sv - 1) (0, 0, 0) ≠
      (skeleton alpha dj sv fv k).1.getD sv (0, 0, 0) ∧
    (skeleton alpha dj sv fv k).1.getD (sv + fv - 2) (0, 0, 0) ≠
      (skeleton alpha dj sv fv k).1.getD (sv + fv - 1) (0, 0, 0) ∧
    (skeleton alpha dj sv fv k).1.getD (sv + 2 * fv - 3) (0, 0, 0) ≠
      (skeleton alpha dj sv fv k).1.getD (sv + 2 * fv - 2) (0, 0, 0) := by
  have hcospos : 0 < Real.cos alpha :=
    Real.cos_pos_of_mem_Ioo ⟨by linarith [Real.pi_pos], h2⟩
  have hcos : Real.cos alpha ≠ 0 := ne_of_gt hcospos
  have hk2 : (0 : ℝ) < 1 - k ^ 2 := by nlinarith
  have hk2' : (1 : ℝ) - k ^ 2 ≠ 0 := ne_of_gt hk2
  refine ⟨?_, ?_, ?_,
    junction_right_ne alpha dj k sv fv h1 h2 h3 h4 h5 h6 h7,
    junction_apex_ne alpha dj k sv fv h1 h2 h3 h4 h5 h6 h7,
    junction_left_ne alpha dj k sv fv h1 h2 h3 h4 h5 h6 h7⟩
  · rw [pslR_getElem? _ _ _ (sv - 1) h4 (by omega), tOf_last _ _ h4,
      pcRList_getElem? _ _ _ _ _ h5 (by omega), betaOf_zero,
      pcRf_at_neg_alpha alpha dj k hcos hk2']
    norm_num
  · rw [rsl_getElem? _ _ _ _ (sv - 1) h4 (by omega), tOf_last _ _ h4,
      rcList_getElem? _ _ _ _ _ h5 (by omega), betaOf_zero,
      rcf_at_neg_alpha alpha dj k hcos h3.le h6.le hk2,
      norm3_leg alpha dj h3.le, Real.tan_arcsin]
  · rw [casl_getElem? _ _ _ (by omega), cacList_getElem? _ _ _ h5 (by omega),
      betaOf_zero]

/-- C4 witness: the position-continuity component at concrete parameters. -/
theorem C4_witness :
    (pslR (π/4) 1 2)[2 - 1]? = (pcRList (π/4) 1 (1/2) 2)[0]? :=
  (C4_junction_continuity (π/4) 1 (1/2) 2 2 (by positivity)
    (by linarith [Real.pi_pos]) (by norm_num) (by norm_num) (by norm_num)
    (by norm_num) (by norm_num)).1

/-- C6 counterexample: with `lon = lat = 0`, `tilt = π/2`, the code rotates
the point `(0,1,0)` to `(-1,0,0)` (tilt about the height axis, axis 2),
whereas the claimed order (tilt about the depth axis, axis 0) would produce
`(0,0,1)`. -/
theorem C6_counterexample :
    rotate_mesh [((0 : ℝ), 1, 0)] 0 0 (π / 2) = [((-1 : ℝ), 0, 0)] ∧
    rotate_mesh_claimed [((0 : ℝ), 1, 0)] 0 0 (π / 2) = [((0 : ℝ), 0, 1)] ∧
    rotate_mesh [((0 : ℝ), 1, 0)] 0 0 (π / 2) ≠
      rotate_mesh_claimed [((0 : ℝ), 1, 0)] 0 0 (π / 2) := by
  refine ⟨?_, ?_, ?_⟩ <;>
    simp [rotate_mesh, rotate_mesh_claimed, rotX, rotY, rotZ,
      Real.cos_pi_div_two, Real.sin_pi_div_two, Prod.ext_iff]

/-- C6 amended: `rotate_mesh(mesh, [lon, lat, tilt])` applies to every point
the single compound rotation `Rx(lon) * Ry(lat) * Rz(tilt)` — first `tilt`
about the height axis (axis 2), then `lat` about the lateral axis (axis 1),
then `lon` about the depth axis (axis 0) — leaving the point indexing of the
mesh unchanged. -/
theorem C6_amended_rotation_order (mesh : List V3) (lon lat tilt : ℝ) :
    (rotate_mesh mesh lon lat tilt).length = mesh.length ∧
    ∀ i, i < mesh.length →
      (rotate_mesh mesh lon lat tilt).getD i (0, 0, 0) =
        matApply (gcsRotMat lon lat tilt) (mesh.getD i (0, 0, 0)) ∧
      (rotate_mesh mesh lon lat tilt).getD i (0, 0, 0) =
        rotX lon (rotY lat (rotZ tilt (mesh.getD i (0, 0, 0)))) := by
  constructor
  · exact List.length_map _ _
  · intro i hi
    have hx : mesh[i]? = some mesh[i] := List.getElem?_eq_getElem hi
    have hmap : (rotate_mesh mesh lon lat tilt).getD i (0, 0, 0) =
        rotX lon (rotY lat (rotZ tilt (mesh.getD i (0, 0, 0)))) := by
      unfold rotate_mesh
      rw [List.getD_eq_getElem?_getD, List.getD_eq_getElem?_getD,
        List.getElem?_map _ _ i, hx]
      rfl
    refine ⟨?_, hmap⟩
    rw [hmap]
    unfold rotX rotY rotZ matApply gcsRotMat
    simp only [Prod.mk.injEq]
    refine ⟨by ring, by ring, by ring⟩

/-- C6 amended witness: concrete instance at the zero rotation on a
one-point mesh. -/
theorem C6_witness :
    (rotate_mesh [((1 : ℝ), 0, 0)] 0 0 0).getD 0 (0, 0, 0) =
      matApply (gcsRotMat 0 0 0) (([((1 : ℝ), 0, 0)] : List V3).getD 0 (0, 0, 0)) :=
  ((C6_amended_rotation_order [((1 : ℝ), 0, 0)] 0 0 0).2 0 (by norm_num)).1

/-- C7 counterexample: rotating `(0,0,1)` first by longitude `π/2` alone and
then by latitude `π/2` alone gives `(0,-1,0)`, while the combined call gives
`(1,0,0)`. -/
theorem C7_counterexample :
    rotate_mesh (rotate_mesh [((0 : ℝ), 0, 1)] (π / 2) 0 0) 0 (π / 2) 0 ≠
      rotate_mesh [((0 : ℝ), 0, 1)] (π / 2) (π / 2) 0 := by
  simp [rotate_mesh, rotX, rotY, rotZ, Real.cos_pi_div_two, Real.sin_pi_div_two,
    Prod.ext_iff]

/-- C7 amended: rotating first by latitude alone and then by longitude alone
gives the same result as one combined rotation:
`rotate(rotate(mesh, 0, lat1, 0), lon1, 0, 0) = rotate(mesh, lon1, lat1, 0)`. -/
theorem C7_amended_composition (mesh : List V3) (lon1 lat1 : ℝ) :
    rotate_mesh (rotate_mesh mesh 0 lat1 0) lon1 0 0 = rotate_mesh mesh lon1 lat1 0 := by
  unfold rotate_mesh
  rw [List.map_map]
  have hfun : (fun w => rotX lon1 (rotY 0 (rotZ 0 w))) ∘
      (fun w => rotX 0 (rotY lat1 (rotZ 0 w))) =
      fun w => rotX lon1 (rotY lat1 (rotZ 0 w)) := by
    funext w
    unfold rotX rotY rotZ
    simp
  rw [hfun]

/-- At `kappa = 0` every front-arc radius is exactly zero:
`X0 = rho` and the radicand collapses to `-rho^2 + rho^2 = 0`. -/
theorem rcf_k_zero (alpha dj beta : ℝ) : rcf alpha dj 0 beta = 0 := by
  have h0 : (hOf alpha dj ^ 2 * (0 : ℝ) ^ 2 - rhoOf alpha dj ^ 2) / (1 - (0 : ℝ) ^ 2)
      + X0f alpha dj 0 beta ^ 2 = 0 := by
    unfold X0f
    norm_num
  unfold rcf
  rw [h0, Real.sqrt_zero]

/-- C8 counterexample: at the degenerate value `kappa = 0` (with the valid
half-angle `alpha = π/4`), `apex_radius` returns the ordinary, finite output
`0` (no denominator vanishes there) instead of rejecting the input: the code
contains no `DomainError` and no parameter validation. -/
theorem C8_counterexample : apex_radius (π / 4) 8.79 0 = 0 := by
  unfold apex_radius
  norm_num

/-- C8 amended: the core performs no domain validation, defines no
`DomainError`, and never aborts — everything runs on numpy values, where
even a zero-denominator division returns a non-finite value rather than
raising. At `kappa = 0` the outputs are ordinary finite values: `apex_radius`
returns `0`, and `skeleton` returns a complete `2*sv + 2*fv - 3`-sample
skeleton whose cross-section radii are all exactly `0`. -/
theorem C8_amended_no_validation (alpha dj height : ℝ) (sv fv : ℕ)
    (hsv : 2 ≤ sv) (hfv : 2 ≤ fv) :
    apex_radius alpha height 0 = 0 ∧
    (skeleton alpha dj sv fv 0).2.1.length = 2 * sv + 2 * fv - 3 ∧
    ∀ i < 2 * sv + 2 * fv - 3, (skeleton alpha dj sv fv 0).2.1.getD i 0 = 0 := by
  refine ⟨?_, skeleton_r_length _ _ _ _ _ (by omega) (by omega), ?_⟩
  · unfold apex_radius
    norm_num
  · intro i hi
    rcases Nat.lt_or_ge i sv with hA | hge1
    · rw [List.getD_eq_getElem?_getD, skeleton_r_A _ _ _ _ _ i hA,
        rsl_getElem? _ _ _ _ i hsv hA]
      simp [Real.arcsin_zero, Real.tan_zero]
    · rcases Nat.lt_or_ge i (sv + (fv - 1)) with hB | hge2
      · obtain ⟨j, rfl⟩ : ∃ j, i = sv + j := ⟨i - sv, by omega⟩
        rw [List.getD_eq_getElem?_getD, skeleton_r_B _ _ _ _ _ _ (by omega),
          rcList_getElem? _ _ _ _ _ hfv (by omega), rcf_k_zero]
        rfl
      · rcases Nat.lt_or_ge i (sv + 2 * (fv - 1)) with hC | hge3
        · obtain ⟨m, rfl⟩ : ∃ m, i = sv + (fv - 1) + m := ⟨i - (sv + (fv - 1)), by omega⟩
          rw [List.getD_eq_getElem?_getD, skeleton_r_C _ _ _ _ _ _ (by omega),
            rcList_getElem? _ _ _ _ _ hfv (by omega), rcf_k_zero]
          rfl
        · obtain ⟨m, rfl⟩ : ∃ m, i = sv + 2 * (fv - 1) + m :=
            ⟨i - (sv + 2 * (fv - 1)), by omega⟩
          rw [List.getD_eq_getElem?_getD,
            skeleton_r_D _ _ _ _ _ _ (by omega) (by omega),
            rsl_getElem? _ _ _ _ _ hsv (by omega)]
          simp [Real.arcsin_zero, Real.tan_zero]

/-- C8 amended witness: concrete instance at `alpha = π/4`, `dj = 1`,
`height = 8.79`, `sv = fv = 2`. -/
theorem C8_witness :
    apex_radius (π / 4) 8.79 0 = 0 ∧
    (skeleton (π / 4) 1 2 2 0).2.1.length = 2 * 2 + 2 * 2 - 3 ∧
    ∀ i < 2 * 2 + 2 * 2 - 3, (skeleton (π / 4) 1 2 2 0).2.1.getD i 0 = 0 :=
  C8_amended_no_validation (π / 4) 1 8.79 2 2 (by norm_num) (by norm_num)

/-- C9 counterexample: at `alpha = radians(25)`, `height = 8.79`,
`kappa = 0.26`, `apex_radius` evaluates exactly to `0.26 * 8.79 / 1.26
≈ 1.8138`, which is not approximately `1.02` (it is not even within `1/2`). -/
theorem C9_counterexample :
    apex_radius (25 * π / 180) 8.79 0.26 = 0.26 * 8.79 / 1.26 ∧
    ¬ |(0.26 * 8.79 / 1.26 : ℝ) - 1.02| < 1 / 2 := by
  have hpi := Real.pi_pos
  have hsin : (1 : ℝ) + Real.sin (25 * π / 180) ≠ 0 := by
    have h := Real.sin_nonneg_of_nonneg_of_le_pi (x := 25 * π / 180) (by positivity)
      (by linarith)
    linarith
  have hcos : Real.cos (25 * π / 180) ≠ 0 :=
    ne_of_gt (Real.cos_pos_of_mem_Ioo ⟨by linarith, by linarith⟩)
  constructor
  · unfold apex_radius
    rw [Real.tan_eq_sin_div_cos]
    field_simp
    ring
  · rw [abs_of_nonneg (by norm_num)]
    norm_num

/-- C9 amended: `apex_radius` computes exactly
`kappa * (b + rho) / (1 - kappa^2)` with
`h = apex_height * (1-kappa) * cos(alpha) / (1 + sin(alpha))`,
`b = h / cos(alpha)`, `rho = h * tan(alpha)`; at the concrete inputs
`alpha = radians(25)`, `height = 8.79`, `kappa = 0.26` the result is exactly
`0.26 * 8.79 / 1.26`, approximately `1.81` solar radii (not `1.02`). -/
theorem C9_amended_apex_radius (alpha height k : ℝ) :
    apex_radius alpha height k =
      k * (height * (1 - k) * Real.cos alpha / (1 + Real.sin alpha) / Real.cos alpha
        + height * (1 - k) * Real.cos alpha / (1 + Real.sin alpha) * Real.tan alpha)
      / (1 - k ^ 2) ∧
    apex_radius (25 * π / 180) 8.79 0.26 = 0.26 * 8.79 / 1.26 ∧
    |(0.26 * 8.79 / 1.26 : ℝ) - 1.81| < 1 / 100 := by
  refine ⟨rfl, ?_, ?_⟩
  · have hpi := Real.pi_pos
    have hsin : (1 : ℝ) + Real.sin (25 * π / 180) ≠ 0 := by
      have h := Real.sin_nonneg_of_nonneg_of_le_pi (x := 25 * π / 180) (by positivity)
        (by linarith)
      linarith
    have hcos : Real.cos (25 * π / 180) ≠ 0 :=
      ne_of_gt (Real.cos_pos_of_mem_Ioo ⟨by linarith, by linarith⟩)
    unfold apex_radius
    rw [Real.tan_eq_sin_div_cos]
    field_simp
    ring
  · rw [abs_of_nonneg (by norm_num)]
    norm_num
